import Mathlib

/-!
# Verification of the 2-link planar robotic arm simulator

Shallow embedding of the command execution engine of `main.js`: the robot
model, forward/inverse kinematics, the FIFO command queue, the per-frame
state integrator, and the side-channel commands.  JavaScript numbers are
modelled as exact reals; the mutually recursive queue-draining calls
(`enqueue` / `tryStartNext` / `startCommand` / `finishCommand`) are modelled
with an explicit fuel parameter (the source recursion always terminates
because every cycle through `finishCommand` pops one queued command, and a
`LINE_TO` expansion enqueues only non-expanding `MOVE_TO` commands; out of
fuel the model returns the state unchanged, and every concrete run below is
supplied with enough fuel for this branch never to be taken).
-/

set_option maxHeartbeats 1600000

namespace RoboSim

noncomputable section

/-- `deg2rad` from main.js: `(d * Math.PI) / 180`. -/
def deg2rad (d : ℝ) : ℝ := d * Real.pi / 180

/-- `rad2deg` from main.js: `(r * 180) / Math.PI`. -/
def rad2deg (r : ℝ) : ℝ := r * 180 / Real.pi

/-- `clamp` from main.js: `Math.max(a, Math.min(b, x))`. -/
def clamp (x a b : ℝ) : ℝ := max a (min b x)

/-- `lerp` from main.js: `a + (b - a) * t`. -/
def lerp (a b t : ℝ) : ℝ := a + (b - a) * t

/-- `smoothstep` from main.js: `t*t*(3 - 2*t)`. -/
def smoothstep (t : ℝ) : ℝ := t * t * (3 - 2 * t)

/-- The immutable robot configuration (`model` object in main.js). -/
structure ArmModel where
  L1 : ℝ
  L2 : ℝ
  q1Min : ℝ
  q1Max : ℝ
  q2Min : ℝ
  q2Max : ℝ
  maxSpeed : ℝ

/-- The `model` constant of main.js: links 160 and 120 px, joint limits
±170°, maximum joint speed 120°/s. -/
def model : ArmModel :=
  { L1 := 160
    L2 := 120
    q1Min := deg2rad (-170)
    q1Max := deg2rad 170
    q2Min := deg2rad (-170)
    q2Max := deg2rad 170
    maxSpeed := deg2rad 120 }

/-- Result record of `fk` in main.js (`{x1, y1, x2, y2}`). -/
structure FkPts where
  x1 : ℝ
  y1 : ℝ
  x2 : ℝ
  y2 : ℝ

/-- `fk` from main.js: elbow position from `q1`, end effector from `q1+q2`. -/
def fk (q : ℝ × ℝ) : FkPts :=
  let x1 := model.L1 * Real.cos q.1
  let y1 := model.L1 * Real.sin q.1
  { x1 := x1
    y1 := y1
    x2 := x1 + model.L2 * Real.cos (q.1 + q.2)
    y2 := y1 + model.L2 * Real.sin (q.1 + q.2) }

/-- `Math.atan2(y, x)`: the argument of the complex number `x + y·i`,
taken in `(-π, π]`.  (JS floats distinguish `-0`, so `Math.atan2(-0, x)`
with `x < 0` returns `-π` where this model returns `π`; the reals have no
signed zero.  The difference only arises at `c2 = -1` exactly, where both
`±π` lie outside the ±170° joint limits, so no claim is affected.) -/
def atan2 (y x : ℝ) : ℝ := Complex.arg ⟨x, y⟩

/-- Closed form of the first `while` loop of `wrap` in main.js: the body
`a -= 2π` runs exactly `⌈(a - π)/(2π)⌉` times (zero times when `a ≤ π`),
because that is the least `k : ℕ` with `a - 2πk ≤ π`. -/
def wrapDown (a : ℝ) : ℝ :=
  a - 2 * Real.pi * (⌈(a - Real.pi) / (2 * Real.pi)⌉.toNat : ℝ)

/-- Closed form of the second `while` loop of `wrap` in main.js: the body
`a += 2π` runs exactly `⌈(-π - a)/(2π)⌉` times (zero times when `-π ≤ a`). -/
def wrapUp (a : ℝ) : ℝ :=
  a + 2 * Real.pi * (⌈(-Real.pi - a) / (2 * Real.pi)⌉.toNat : ℝ)

/-- `wrap` from main.js: first reduce from above, then from below. -/
def wrap (a : ℝ) : ℝ := wrapUp (wrapDown a)

/-- `withinLimits` from main.js. -/
def withinLimits (q : ℝ × ℝ) : Prop :=
  model.q1Min ≤ q.1 ∧ q.1 ≤ model.q1Max ∧ model.q2Min ≤ q.2 ∧ q.2 ≤ model.q2Max

/-- The quantity `c2` computed by `ik` in main.js
(`(r2 - L1*L1 - L2*L2) / (2*L1*L2)` with `r2 = x*x + y*y`). -/
def c2val (x y : ℝ) : ℝ :=
  let r2 := x * x + y * y
  (r2 - model.L1 * model.L1 - model.L2 * model.L2) / (2 * model.L1 * model.L2)

/-- `s2_pos` in `ik`: `Math.sqrt(Math.max(0, 1 - c2*c2))`. -/
def s2pos (x y : ℝ) : ℝ :=
  Real.sqrt (max 0 (1 - c2val x y * c2val x y))

/-- `q2a` in `ik` (the branch the source comments call elbow-up). -/
def q2a (x y : ℝ) : ℝ := atan2 (s2pos x y) (c2val x y)

/-- `q2b` in `ik` (the branch the source comments call elbow-down);
`s2_neg = -s2_pos`. -/
def q2b (x y : ℝ) : ℝ := atan2 (-s2pos x y) (c2val x y)

/-- `q1a` in `ik`. -/
def q1a (x y : ℝ) : ℝ :=
  atan2 y x -
    atan2 (model.L2 * Real.sin (q2a x y)) (model.L1 + model.L2 * Real.cos (q2a x y))

/-- `q1b` in `ik`. -/
def q1b (x y : ℝ) : ℝ :=
  atan2 y x -
    atan2 (model.L2 * Real.sin (q2b x y)) (model.L1 + model.L2 * Real.cos (q2b x y))

/-- `candA = [wrap(q1a), wrap(q2a)]` in `ik`. -/
def candA (x y : ℝ) : ℝ × ℝ := (wrap (q1a x y), wrap (q2a x y))

/-- `candB = [wrap(q1b), wrap(q2b)]` in `ik`. -/
def candB (x y : ℝ) : ℝ × ℝ := (wrap (q1b x y), wrap (q2b x y))

/-- Failure reasons of `ik` in main.js. -/
inductive IKReason
  | unreachable
  | jointLimits
deriving DecidableEq

/-- The reason string reported by main.js. -/
def IKReason.str : IKReason → String
  | .unreachable => "unreachable"
  | .jointLimits => "joint-limits"

/-- Branch tag of a successful `ik` solution. -/
inductive IKBranch
  | elbowUp
  | elbowDown
deriving DecidableEq

/-- Successful `ik` payload: chosen joints `q`, untaken alternative `alt`,
and the chosen branch. -/
structure IKSol where
  q : ℝ × ℝ
  alt : ℝ × ℝ
  chosen : IKBranch

/-- Result of `ik`: `{ok: true, q, alt, chosen}` or `{ok: false, reason}`. -/
inductive IKResult
  | ok (sol : IKSol)
  | fail (reason : IKReason)

open Classical in
/-- `ik` from main.js: unreachable when `c2 < -1 || c2 > 1`; otherwise prefer
elbow-down (`candB`), then elbow-up (`candA`), else fail with joint-limits. -/
def ik (x y : ℝ) : IKResult :=
  if c2val x y < -1 ∨ 1 < c2val x y then .fail .unreachable
  else if withinLimits (candB x y) then .ok ⟨candB x y, candA x y, .elbowDown⟩
  else if withinLimits (candA x y) then .ok ⟨candA x y, candB x y, .elbowUp⟩
  else .fail .jointLimits

/-! ### Basic lemmas about `wrap` and `atan2` -/

theorem wrapDown_eq_self {a : ℝ} (h : a ≤ Real.pi) : wrapDown a = a := by
  have hpi : (0 : ℝ) < 2 * Real.pi := by positivity
  have hq : (a - Real.pi) / (2 * Real.pi) ≤ 0 :=
    div_nonpos_iff.2 (Or.inr ⟨by linarith, le_of_lt hpi⟩)
  have : (⌈(a - Real.pi) / (2 * Real.pi)⌉).toNat = 0 :=
    Int.toNat_eq_zero.2 (Int.ceil_le.2 (by exact_mod_cast hq))
  rw [wrapDown, this]
  push_cast
  ring

theorem wrapUp_eq_self {a : ℝ} (h : -Real.pi ≤ a) : wrapUp a = a := by
  have hpi : (0 : ℝ) < 2 * Real.pi := by positivity
  have hq : (-Real.pi - a) / (2 * Real.pi) ≤ 0 :=
    div_nonpos_iff.2 (Or.inr ⟨by linarith, le_of_lt hpi⟩)
  have : (⌈(-Real.pi - a) / (2 * Real.pi)⌉).toNat = 0 :=
    Int.toNat_eq_zero.2 (Int.ceil_le.2 (by exact_mod_cast hq))
  rw [wrapUp, this]
  push_cast
  ring

theorem wrap_eq_self {a : ℝ} (h1 : -Real.pi ≤ a) (h2 : a ≤ Real.pi) : wrap a = a := by
  rw [wrap, wrapDown_eq_self h2, wrapUp_eq_self h1]

theorem wrap_zero : wrap 0 = 0 :=
  wrap_eq_self (by linarith [Real.pi_pos]) (le_of_lt Real.pi_pos)

theorem wrap_pi : wrap Real.pi = Real.pi :=
  wrap_eq_self (by linarith [Real.pi_pos]) le_rfl

/-- `wrap` only shifts its argument by an integer multiple of `2π`. -/
theorem wrap_eq_add_int_mul (a : ℝ) :
    ∃ k : ℤ, wrap a = a + k * (2 * Real.pi) := by
  refine ⟨(⌈(-Real.pi - wrapDown a) / (2 * Real.pi)⌉.toNat : ℤ) -
    (⌈(a - Real.pi) / (2 * Real.pi)⌉.toNat : ℤ), ?_⟩
  rw [wrap, wrapUp, wrapDown]
  push_cast
  ring

theorem atan2_zero_of_nonneg {x : ℝ} (h : 0 ≤ x) : atan2 0 x = 0 := by
  have hx : (⟨x, 0⟩ : ℂ) = (x : ℂ) := Complex.ext rfl rfl
  rw [atan2, hx, Complex.arg_ofReal_of_nonneg h]

theorem atan2_pi_of_neg {x : ℝ} (h : x < 0) : atan2 0 x = Real.pi := by
  have hx : (⟨x, 0⟩ : ℂ) = (x : ℂ) := Complex.ext rfl rfl
  rw [atan2, hx, Complex.arg_ofReal_of_neg h]

/-! ### Concrete evaluations of `ik` -/

theorem c2val_280 : c2val 280 0 = 1 := by
  simp only [c2val, model]
  norm_num

theorem c2val_neg280 : c2val (-280) 0 = 1 := by
  simp only [c2val, model]
  norm_num

theorem s2pos_280 : s2pos 280 0 = 0 := by
  rw [s2pos, c2val_280]
  norm_num

theorem s2pos_neg280 : s2pos (-280) 0 = 0 := by
  rw [s2pos, c2val_neg280]
  norm_num

theorem q2a_280 : q2a 280 0 = 0 := by
  rw [q2a, s2pos_280, c2val_280, atan2_zero_of_nonneg (by norm_num)]

theorem q2b_280 : q2b 280 0 = 0 := by
  rw [q2b, s2pos_280, c2val_280, neg_zero, atan2_zero_of_nonneg (by norm_num)]

theorem q1a_280 : q1a 280 0 = 0 := by
  rw [q1a, q2a_280]
  simp only [model, Real.sin_zero, Real.cos_zero, mul_zero, mul_one]
  rw [atan2_zero_of_nonneg (by norm_num : (0:ℝ) ≤ 280)]
  rw [show (160 : ℝ) + 120 = 280 by norm_num,
    atan2_zero_of_nonneg (by norm_num : (0:ℝ) ≤ 280)]
  ring

theorem q1b_280 : q1b 280 0 = 0 := by
  rw [q1b, q2b_280]
  simp only [model, Real.sin_zero, Real.cos_zero, mul_zero, mul_one]
  rw [atan2_zero_of_nonneg (by norm_num : (0:ℝ) ≤ 280)]
  rw [show (160 : ℝ) + 120 = 280 by norm_num,
    atan2_zero_of_nonneg (by norm_num : (0:ℝ) ≤ 280)]
  ring

theorem candA_280 : candA 280 0 = (0, 0) := by
  rw [candA, q1a_280, q2a_280, wrap_zero]

theorem candB_280 : candB 280 0 = (0, 0) := by
  rw [candB, q1b_280, q2b_280, wrap_zero]

theorem withinLimits_origin : withinLimits (0, 0) := by
  simp only [withinLimits, model, deg2rad]
  refine ⟨?_, ?_, ?_, ?_⟩ <;> nlinarith [Real.pi_pos]

theorem ik_280 : ik 280 0 = .ok ⟨(0, 0), (0, 0), .elbowDown⟩ := by
  rw [ik, if_neg, if_pos, candB_280, candA_280]
  · rw [candB_280]
    exact withinLimits_origin
  · rw [c2val_280]
    norm_num

theorem ik_281 : ik 281 0 = .fail .unreachable := by
  rw [ik, if_pos]
  right
  simp only [c2val, model]
  norm_num

theorem q2a_neg280 : q2a (-280) 0 = 0 := by
  rw [q2a, s2pos_neg280, c2val_neg280, atan2_zero_of_nonneg (by norm_num)]

theorem q2b_neg280 : q2b (-280) 0 = 0 := by
  rw [q2b, s2pos_neg280, c2val_neg280, neg_zero, atan2_zero_of_nonneg (by norm_num)]

theorem q1a_neg280 : q1a (-280) 0 = Real.pi := by
  rw [q1a, q2a_neg280]
  simp only [model, Real.sin_zero, Real.cos_zero, mul_zero, mul_one]
  rw [atan2_pi_of_neg (by norm_num : (-280:ℝ) < 0)]
  rw [show (160 : ℝ) + 120 = 280 by norm_num,
    atan2_zero_of_nonneg (by norm_num : (0:ℝ) ≤ 280)]
  ring

theorem q1b_neg280 : q1b (-280) 0 = Real.pi := by
  rw [q1b, q2b_neg280]
  simp only [model, Real.sin_zero, Real.cos_zero, mul_zero, mul_one]
  rw [atan2_pi_of_neg (by norm_num : (-280:ℝ) < 0)]
  rw [show (160 : ℝ) + 120 = 280 by norm_num,
    atan2_zero_of_nonneg (by norm_num : (0:ℝ) ≤ 280)]
  ring

theorem candA_neg280 : candA (-280) 0 = (Real.pi, 0) := by
  rw [candA, q1a_neg280, q2a_neg280, wrap_pi, wrap_zero]

theorem candB_neg280 : candB (-280) 0 = (Real.pi, 0) := by
  rw [candB, q1b_neg280, q2b_neg280, wrap_pi, wrap_zero]

/-- `q1 = π` violates the `+170°` joint limit, since `π > 17π/18`. -/
theorem not_withinLimits_pi : ¬ withinLimits (Real.pi, 0) := by
  simp only [withinLimits, model, deg2rad]
  rintro ⟨-, h2, -, -⟩
  nlinarith [Real.pi_pos]

theorem ik_neg280 : ik (-280) 0 = .fail .jointLimits := by
  rw [ik, if_neg, if_neg, if_neg]
  · rw [candA_neg280]
    exact not_withinLimits_pi
  · rw [candB_neg280]
    exact not_withinLimits_pi
  · rw [c2val_neg280]
    norm_num

/-! ### Durations -/

/-- `computeDuration` from main.js; `speedScale` is read from the mutable
state in the source, so it is passed explicitly here. -/
def computeDuration (qStart qTarget : ℝ × ℝ) (speedScale : ℝ) : ℝ :=
  let dq1 := |qTarget.1 - qStart.1|
  let dq2 := |qTarget.2 - qStart.2|
  let dq := max dq1 dq2
  let speed := model.maxSpeed * clamp speedScale 0.05 1.0
  max 0.08 (dq / speed)

theorem computeDuration_eval (qs qt : ℝ × ℝ) (v : ℝ) :
    computeDuration qs qt v =
      max 0.08 (max |qt.1 - qs.1| |qt.2 - qs.2| / (model.maxSpeed * clamp v 0.05 1)) := by
  simp only [computeDuration]
  norm_num

/--
Claim C3, amended.  For a speed-scale value `v` with `0.05 ≤ v/2` and
`v ≤ 1` (so that neither `v` nor `v/2` is altered by the `[0.05, 1]` clamp
inside `computeDuration`), halving the speed scale at least doubles the
duration, except when the 0.08 s floor was already active at speed `v`.
-/
theorem spec_c3_amended (qs qt : ℝ × ℝ) (v : ℝ) (h1 : 0.05 ≤ v / 2) (h2 : v ≤ 1) :
    2 * computeDuration qs qt v ≤ computeDuration qs qt (v / 2) ∨
      computeDuration qs qt v = 0.08 := by
  have hv : (0 : ℝ) < v := by linarith
  have hclv : clamp v 0.05 1 = v := by
    rw [clamp, min_eq_right h2, max_eq_right (by linarith)]
  have hclv2 : clamp (v / 2) 0.05 1 = v / 2 := by
    rw [clamp, min_eq_right (by linarith), max_eq_right h1]
  have hM : (0 : ℝ) < model.maxSpeed := by
    simp only [model, deg2rad]
    positivity
  have hspeed : (0 : ℝ) < model.maxSpeed * v := mul_pos hM hv
  set dq := max |qt.1 - qs.1| |qt.2 - qs.2| with hdq
  have hdq0 : (0 : ℝ) ≤ dq := le_trans (abs_nonneg _) (le_max_left _ _)
  have hhalf : dq / (model.maxSpeed * (v / 2)) = 2 * (dq / (model.maxSpeed * v)) := by
    field_simp
    ring
  rw [computeDuration_eval, computeDuration_eval, hclv, hclv2, ← hdq, hhalf]
  rcases le_or_lt 0.08 (dq / (model.maxSpeed * v)) with hX | hX
  · left
    have hX0 : (0 : ℝ) ≤ dq / (model.maxSpeed * v) := le_trans (by norm_num) hX
    rw [max_eq_right hX, max_eq_right (by linarith)]
  · right
    exact max_eq_left (le_of_lt hX)

/--
Claim C3, counterexample.  At `v = 0.08` the halved scale `0.04` is clamped
up to `0.05`, so the duration grows only by a factor `1.6 < 2`, even though
the 0.08 s floor is inactive in both durations (both exceed it).
-/
theorem spec_c3_counterexample :
    computeDuration (0, 0) (1, 0) (0.08 / 2) < 2 * computeDuration (0, 0) (1, 0) 0.08 ∧
    0.08 < computeDuration (0, 0) (1, 0) 0.08 ∧
    0.08 < computeDuration (0, 0) (1, 0) (0.08 / 2) := by
  have hpi := Real.pi_pos
  have hpi4 := Real.pi_lt_four
  have hd1 : computeDuration (0, 0) (1, 0) 0.08 = 75 / (4 * Real.pi) := by
    rw [computeDuration_eval]
    simp only [model, deg2rad]
    rw [show clamp 0.08 0.05 1 = 0.08 by rw [clamp]; norm_num]
    rw [show max |(1 : ℝ) - 0| |(0 : ℝ) - 0| = 1 by norm_num]
    rw [show (1 : ℝ) / (120 * Real.pi / 180 * 0.08) = 75 / (4 * Real.pi) by
      field_simp
      ring]
    rw [max_eq_right]
    rw [le_div_iff₀ (by positivity)]
    nlinarith
  have hd2 : computeDuration (0, 0) (1, 0) (0.08 / 2) = 30 / Real.pi := by
    rw [computeDuration_eval]
    simp only [model, deg2rad]
    rw [show clamp (0.08 / 2) 0.05 1 = 0.05 by rw [clamp]; norm_num]
    rw [show max |(1 : ℝ) - 0| |(0 : ℝ) - 0| = 1 by norm_num]
    rw [show (1 : ℝ) / (120 * Real.pi / 180 * 0.05) = 30 / Real.pi by
      field_simp
      ring]
    rw [max_eq_right]
    rw [le_div_iff₀ (by positivity)]
    nlinarith
  refine ⟨?_, ?_, ?_⟩
  · rw [hd1, hd2, div_lt_iff₀ (by positivity)]
    rw [show 2 * (75 / (4 * Real.pi)) * Real.pi = 75 / 2 by field_simp; ring]
    norm_num
  · rw [hd1, lt_div_iff₀ (by positivity)]
    nlinarith
  · rw [hd2, lt_div_iff₀ (by positivity)]
    nlinarith

/-- Witness for `spec_c3_amended` at `v = 0.2`, `qStart = (0,0)`,
`qTarget = (1,0)`. -/
theorem spec_c3_amended_witness :
    2 * computeDuration (0, 0) (1, 0) 0.2 ≤ computeDuration (0, 0) (1, 0) (0.2 / 2) ∨
      computeDuration (0, 0) (1, 0) 0.2 = 0.08 :=
  spec_c3_amended (0, 0) (1, 0) 0.2 (by norm_num) (by norm_num)

/-! ### Claims about `ik` branching -/

/--
Claim C4 (confirmed).  For a target whose `c2` lies in `[-1, 1]`: if the
elbow-down candidate is within both joints' limits, `ik` returns it with
`chosen = "elbow-down"` and the elbow-up candidate as `alt`; otherwise, if
the elbow-up candidate is within limits, `ik` returns it with
`chosen = "elbow-up"`; otherwise `ik` fails with reason `joint-limits`.
-/
theorem spec_c4_branch_preference (x y : ℝ)
    (h1 : -1 ≤ c2val x y) (h2 : c2val x y ≤ 1) :
    (withinLimits (candB x y) →
      ik x y = .ok ⟨candB x y, candA x y, .elbowDown⟩) ∧
    (¬ withinLimits (candB x y) → withinLimits (candA x y) →
      ik x y = .ok ⟨candA x y, candB x y, .elbowUp⟩) ∧
    (¬ withinLimits (candB x y) → ¬ withinLimits (candA x y) →
      ik x y = .fail .jointLimits) := by
  have hno : ¬ (c2val x y < -1 ∨ 1 < c2val x y) := by
    push_neg
    exact ⟨by linarith, by linarith⟩
  refine ⟨fun hB => ?_, fun hB hA => ?_, fun hB hA => ?_⟩ <;> rw [ik, if_neg hno]
  · rw [if_pos hB]
  · rw [if_neg hB, if_pos hA]
  · rw [if_neg hB, if_neg hA]

/-- Witness for `spec_c4_branch_preference` at the reachable target
`(280, 0)`, whose elbow-down candidate `(0, 0)` is within limits. -/
theorem spec_c4_branch_preference_witness :
    -1 ≤ c2val 280 0 ∧ withinLimits (candB 280 0) ∧
      ik 280 0 = .ok ⟨candB 280 0, candA 280 0, .elbowDown⟩ := by
  have h1 : -1 ≤ c2val 280 0 := by
    rw [c2val_280]
    norm_num
  have h2 : c2val 280 0 ≤ 1 := le_of_eq c2val_280
  have hB : withinLimits (candB 280 0) := by
    rw [candB_280]
    exact withinLimits_origin
  exact ⟨h1, hB, (spec_c4_branch_preference 280 0 h1 h2).1 hB⟩

/--
Claim C6 (confirmed).  `ik` fails with reason `unreachable` exactly when
`c2 = (x² + y² - L1² - L2²) / (2·L1·L2)` lies outside `[-1, 1]`; and in
particular `ik(L1+L2+1, 0)` fails with reason `unreachable`.
-/
theorem spec_c6_unreachable_iff :
    (∀ x y : ℝ,
      ik x y = .fail .unreachable ↔ (c2val x y < -1 ∨ 1 < c2val x y)) ∧
    ik (model.L1 + model.L2 + 1) 0 = .fail .unreachable := by
  constructor
  · intro x y
    constructor
    · intro h
      by_contra hno
      rw [ik, if_neg hno] at h
      split_ifs at h
      simp_all
    · intro h
      rw [ik, if_pos h]
  · have h281 : model.L1 + model.L2 + 1 = (281 : ℝ) := by
      simp only [model]
      norm_num
    rw [h281]
    exact ik_281

/-! ### FK/IK round trip -/

theorem ik_ok_c2_bounds (x y : ℝ) (sol : IKSol) (h : ik x y = .ok sol) :
    -1 ≤ c2val x y ∧ c2val x y ≤ 1 := by
  by_cases h0 : c2val x y < -1 ∨ 1 < c2val x y
  · rw [ik, if_pos h0] at h
    cases h
  · push_neg at h0
    exact h0

theorem r2_ge_of_c2_ge (x y : ℝ) (h : -1 ≤ c2val x y) : 1600 ≤ x * x + y * y := by
  have hc : c2val x y = (x * x + y * y - 40000) / 38400 := by
    simp only [c2val, model]
    ring
  rw [hc, le_div_iff₀ (by norm_num : (0:ℝ) < 38400)] at h
  linarith

theorem s2pos_sq (x y : ℝ) (h1 : -1 ≤ c2val x y) (h2 : c2val x y ≤ 1) :
    s2pos x y * s2pos x y = 1 - c2val x y * c2val x y := by
  have hnn : (0:ℝ) ≤ 1 - c2val x y * c2val x y := by nlinarith
  rw [s2pos, max_eq_right hnn]
  exact Real.mul_self_sqrt hnn

/--
Core trigonometric fact behind the FK/IK round trip: for any `s2` with
`s2² = 1 - c2²` (either sign of the square root), the candidate joints that
`ik` builds from `q2 = atan2(s2, c2)` and
`q1 = atan2(y,x) - atan2(L2·sin q2, L1 + L2·cos q2)` place the end effector
exactly at `(x, y)`, also after wrapping both angles into `(-π, π]`.
-/
theorem roundtrip_core (x y s2 : ℝ) (hr : 1600 ≤ x * x + y * y)
    (hs : s2 * s2 = 1 - c2val x y * c2val x y) (q1v q2v : ℝ)
    (hq2 : q2v = atan2 s2 (c2val x y))
    (hq1 : q1v = atan2 y x -
      atan2 (model.L2 * Real.sin q2v) (model.L1 + model.L2 * Real.cos q2v)) :
    (fk (wrap q1v, wrap q2v)).x2 = x ∧ (fk (wrap q1v, wrap q2v)).y2 = y := by
  have hL1 : model.L1 = 160 := rfl
  have hL2 : model.L2 = 120 := rfl
  set c := c2val x y with hcdef
  have hr0 : (0:ℝ) < x * x + y * y := by linarith
  have hcval : c = (x * x + y * y - 40000) / 38400 := by
    rw [hcdef]
    simp only [c2val, model]
    ring
  have key : 40000 + 38400 * c = x * x + y * y := by
    rw [hcval]
    field_simp
  have hunit : c * c + s2 * s2 = 1 := by linarith
  -- the unit vector (c, s2) and the angle q2
  have habs2 : Complex.abs ⟨c, s2⟩ = 1 := by
    rw [Complex.abs_apply, Complex.normSq_mk, hunit, Real.sqrt_one]
  have hz2 : (⟨c, s2⟩ : ℂ) ≠ 0 := by
    intro h0
    rw [h0] at habs2
    simp at habs2
  have hcosq2 : Real.cos q2v = c := by
    rw [hq2, atan2, Complex.cos_arg hz2, habs2]
    simp
  have hsinq2 : Real.sin q2v = s2 := by
    rw [hq2, atan2, Complex.sin_arg, habs2]
    simp
  -- the radius
  set r := Real.sqrt (x * x + y * y) with hrdef
  have hrpos : 0 < r := Real.sqrt_pos.2 hr0
  have hrne : r ≠ 0 := ne_of_gt hrpos
  have hr2 : r * r = x * x + y * y := Real.mul_self_sqrt (le_of_lt hr0)
  -- the target angle φ
  have habsz : Complex.abs ⟨x, y⟩ = r := by
    rw [Complex.abs_apply, Complex.normSq_mk, hrdef]
  have hzne : (⟨x, y⟩ : ℂ) ≠ 0 := by
    intro h0
    rw [h0] at habsz
    simp at habsz
    exact absurd habsz.symm (ne_of_gt hrpos)
  set φ := Complex.arg ⟨x, y⟩ with hφ
  have hcosφ : Real.cos φ = x / r := by
    rw [hφ, Complex.cos_arg hzne, habsz]
  have hsinφ : Real.sin φ = y / r := by
    rw [hφ, Complex.sin_arg, habsz]
  -- the correction angle β
  have hnormw : Complex.normSq ⟨160 + 120 * c, 120 * s2⟩ = x * x + y * y := by
    rw [Complex.normSq_mk]
    linear_combination (14400 : ℝ) * hs + key
  have habsw : Complex.abs ⟨160 + 120 * c, 120 * s2⟩ = r := by
    rw [Complex.abs_apply, hnormw, hrdef]
  have hwne : (⟨160 + 120 * c, 120 * s2⟩ : ℂ) ≠ 0 := by
    intro h0
    rw [h0] at habsw
    simp at habsw
    exact absurd habsw.symm (ne_of_gt hrpos)
  set β := Complex.arg ⟨160 + 120 * c, 120 * s2⟩ with hβ
  have hcosβ : Real.cos β = (160 + 120 * c) / r := by
    rw [hβ, Complex.cos_arg hwne, habsw]
  have hsinβ : Real.sin β = 120 * s2 / r := by
    rw [hβ, Complex.sin_arg, habsw]
  have hq1' : q1v = φ - β := by
    rw [hq1, hsinq2, hcosq2, hL1, hL2]
    rfl
  -- wrapping does not change the trigonometric values
  obtain ⟨k1, hk1⟩ := wrap_eq_add_int_mul q1v
  obtain ⟨k2, hk2⟩ := wrap_eq_add_int_mul q2v
  have hsum : wrap q1v + wrap q2v =
      (q1v + q2v) + ((k1 + k2 : ℤ) : ℝ) * (2 * Real.pi) := by
    rw [hk1, hk2]
    push_cast
    ring
  constructor
  · show model.L1 * Real.cos (wrap q1v) +
      model.L2 * Real.cos (wrap q1v + wrap q2v) = x
    rw [hL1, hL2, hsum, hk1, Real.cos_add_int_mul_two_pi,
      Real.cos_add_int_mul_two_pi, Real.cos_add, hcosq2, hsinq2, hq1',
      Real.cos_sub, Real.sin_sub, hcosφ, hsinφ, hcosβ, hsinβ]
    field_simp
    linear_combination x * 14400 * hs + x * key - x * hr2
  · show model.L1 * Real.sin (wrap q1v) +
      model.L2 * Real.sin (wrap q1v + wrap q2v) = y
    rw [hL1, hL2, hsum, hk1, Real.sin_add_int_mul_two_pi,
      Real.sin_add_int_mul_two_pi, Real.sin_add, hcosq2, hsinq2, hq1',
      Real.cos_sub, Real.sin_sub, hcosφ, hsinφ, hcosβ, hsinβ]
    field_simp
    linear_combination y * 14400 * hs + y * key - y * hr2

/--
Claim C5, amended.  For every target in the reachable annulus
(`|L1-L2| ≤ r ≤ L1+L2`, stated on squared radii) `ik` never fails with
reason `unreachable`; and whenever `ik` returns a solution, applying `fk`
to the returned joints yields an end-effector position equal to `(x, y)`
exactly (in exact real arithmetic).  (`ik` can still fail on such targets,
but only with reason `joint-limits`; see the counterexample.)
-/
theorem spec_c5_amended (x y : ℝ) :
    ((model.L1 - model.L2) * (model.L1 - model.L2) ≤ x * x + y * y →
      x * x + y * y ≤ (model.L1 + model.L2) * (model.L1 + model.L2) →
      ik x y ≠ .fail .unreachable) ∧
    (∀ sol : IKSol, ik x y = .ok sol →
      (fk sol.q).x2 = x ∧ (fk sol.q).y2 = y) := by
  constructor
  · intro hlo hhi
    have hlo' : (1600 : ℝ) ≤ x * x + y * y := by
      have : ((model.L1 - model.L2) * (model.L1 - model.L2) : ℝ) = 1600 := by
        simp only [model]
        norm_num
      linarith [this ▸ hlo]
    have hhi' : x * x + y * y ≤ (78400 : ℝ) := by
      have : ((model.L1 + model.L2) * (model.L1 + model.L2) : ℝ) = 78400 := by
        simp only [model]
        norm_num
      linarith [this ▸ hhi]
    have hc : c2val x y = (x * x + y * y - 40000) / 38400 := by
      simp only [c2val, model]
      ring
    have hno : ¬ (c2val x y < -1 ∨ 1 < c2val x y) := by
      push_neg
      rw [hc]
      constructor
      · rw [le_div_iff₀ (by norm_num : (0:ℝ) < 38400)]
        linarith
      · rw [div_le_iff₀ (by norm_num : (0:ℝ) < 38400)]
        linarith
    rw [ik, if_neg hno]
    split_ifs <;> simp
  · intro sol h
    obtain ⟨hb1, hb2⟩ := ik_ok_c2_bounds x y sol h
    have hr : 1600 ≤ x * x + y * y := r2_ge_of_c2_ge x y hb1
    have hno : ¬ (c2val x y < -1 ∨ 1 < c2val x y) := by
      push_neg
      exact ⟨hb1, hb2⟩
    rw [ik, if_neg hno] at h
    split_ifs at h with hB hA
    · cases h
      exact roundtrip_core x y (-s2pos x y) hr
        (by rw [neg_mul_neg]; exact s2pos_sq x y hb1 hb2)
        (q1b x y) (q2b x y) rfl rfl
    · cases h
      exact roundtrip_core x y (s2pos x y) hr
        (s2pos_sq x y hb1 hb2) (q1a x y) (q2a x y) rfl rfl

/--
Claim C5, counterexample.  The target `(-280, 0)` lies on the outer edge of
the annulus `[|L1-L2|, L1+L2]` (distance 280 = L1+L2 from the origin), yet
`ik` fails: both candidates have `q1 = π`, outside the ±170° joint limits,
so the claim "ik(x, y) succeeds for every target in the annulus" is false.
-/
theorem spec_c5_counterexample :
    ((model.L1 - model.L2) * (model.L1 - model.L2) ≤
      (-280 : ℝ) * (-280) + 0 * 0) ∧
    ((-280 : ℝ) * (-280) + 0 * 0 ≤
      (model.L1 + model.L2) * (model.L1 + model.L2)) ∧
    ik (-280) 0 = .fail .jointLimits := by
  refine ⟨?_, ?_, ik_neg280⟩ <;> · simp only [model]; norm_num

/-- Witness for `spec_c5_amended`: at `(280, 0)` the solver returns
`q = (0, 0)` and `fk` maps it back onto the target. -/
theorem spec_c5_amended_witness :
    (fk ((0:ℝ), (0:ℝ))).x2 = 280 ∧ (fk ((0:ℝ), (0:ℝ))).y2 = 0 :=
  (spec_c5_amended 280 0).2 ⟨((0:ℝ), (0:ℝ)), ((0:ℝ), (0:ℝ)), .elbowDown⟩ ik_280

/-! ### Engine state -/

/-- Command kinds with their payloads (`cmd.type` plus fields in main.js).
`UNKNOWN` stands for any unrecognised kind (the final `else` branch of
`startCommand`). -/
inductive CmdType
  | HOME
  | SET_JOINTS (deg1 deg2 : ℝ)
  | MOVE_TO (x y : ℝ)
  | SLEEP (seconds : ℝ)
  | LINE_TO (x y : ℝ) (steps : ℤ)
  | UNKNOWN

/-- A queued command: correlation id plus kind. -/
structure Cmd where
  id : String
  type : CmdType

/-- Completion results posted as `cmd_done` messages in main.js. -/
inductive CmdResult
  | okPlain
  | okIk (chosen : Option IKBranch)
  | okExpanded
  | err (error : String)

/-- The executing command together with the fields (`qStart`, `qTarget`,
`duration`, `ik.chosen`) that `startCommand` assigns onto the command
object; `none` models a field not (yet) assigned. -/
structure ActiveCmd where
  cmd : Cmd
  qStart : Option (ℝ × ℝ)
  qTarget : Option (ℝ × ℝ)
  duration : Option ℝ
  ikChosen : Option IKBranch

/-- The mutable simulation state: the `state` object of main.js together
with the module-level `cmdQueue` and the stream of `cmd_done` completion
events posted to the worker (in order of emission). -/
structure SimState where
  q : ℝ × ℝ
  speedScale : ℝ
  toolPath : List (ℝ × ℝ)
  busy : Bool
  currentCmd : Option ActiveCmd
  t : ℝ
  queue : List Cmd
  events : List (String × CmdResult)

/-- The initial `state` of main.js (queue empty, no events posted yet). -/
def initState : SimState :=
  { q := (deg2rad 0, deg2rad 0)
    speedScale := 0.7
    toolPath := []
    busy := false
    currentCmd := none
    t := 0
    queue := []
    events := [] }

/-- The JavaScript `| 0` coercion (ToInt32) applied to an integer
operand: wrap modulo `2^32` into `[-2^31, 2^31)`.  The `LINE_TO` branch of
`startCommand` applies it to the step count (`Math.max(2, cmd.steps | 0)`
at part_000:156); on the protocol's int32 range it is the identity, beyond
it it wraps (e.g. `toInt32 (2^31) = -2^31`). -/
def toInt32 (n : ℤ) : ℤ := (n + 2147483648) % 4294967296 - 2147483648

/-- The body of the `LINE_TO` expansion loop in `startCommand`: the
sub-command enqueued at loop index `i` (the source counts `i = 1..steps`;
here `i` counts from 0, so the source index is `i + 1`), with
`u = (i+1)/n`, id `"<parentId>:<i+1>"` and target linearly interpolated
from `(x0, y0)` towards `(x, y)`. -/
def lineSub (pid : String) (x y x0 y0 : ℝ) (n : ℤ) (i : ℕ) : Cmd :=
  ⟨pid ++ ":" ++ toString (i + 1),
    .MOVE_TO (x0 + (x - x0) * (((i : ℝ) + 1) / (n : ℝ)))
      (y0 + (y - y0) * (((i : ℝ) + 1) / (n : ℝ)))⟩

/-- The full list of sub-commands a `LINE_TO(x, y, steps)` expansion
enqueues, in enqueue order, starting from end-effector position
`(x0, y0)`. -/
def lineSubCmds (pid : String) (x y x0 y0 : ℝ) (steps : ℤ) : List Cmd :=
  (List.range (max 2 (toInt32 steps)).toNat).map
    (lineSub pid x y x0 y0 (max 2 (toInt32 steps)))

mutual

/-- `enqueue` from main.js: push at the tail, then try to start. -/
def enqueue : ℕ → Cmd → SimState → SimState
  | 0, _, s => s
  | fuel + 1, c, s => tryStartNext fuel { s with queue := s.queue ++ [c] }

/-- `tryStartNext` from main.js: no-op when busy; otherwise pop the head of
the queue (if any) and start it. -/
def tryStartNext : ℕ → SimState → SimState
  | 0, s => s
  | fuel + 1, s =>
    if s.busy then s
    else
      match s.queue with
      | [] => s
      | c :: rest => startCommand fuel c { s with queue := rest }

/-- `startCommand` from main.js.  The source first sets
`busy = true; currentCmd = cmd; t = 0` and then branches on the kind; here
the same three updates are written inside each branch. -/
def startCommand : ℕ → Cmd → SimState → SimState
  | 0, _, s => s
  | fuel + 1, c, s =>
    match c.type with
    | .HOME =>
      let qStart := s.q
      let qTarget : ℝ × ℝ := (0, 0)
      { s with
          busy := true
          t := 0
          currentCmd := some ⟨c, some qStart, some qTarget,
            some (computeDuration qStart qTarget s.speedScale), none⟩ }
    | .SET_JOINTS d1 d2 =>
      let qStart := s.q
      let qTarget := (clamp (deg2rad d1) model.q1Min model.q1Max,
        clamp (deg2rad d2) model.q2Min model.q2Max)
      { s with
          busy := true
          t := 0
          currentCmd := some ⟨c, some qStart, some qTarget,
            some (computeDuration qStart qTarget s.speedScale), none⟩ }
    | .MOVE_TO x y =>
      match ik x y with
      | .fail r =>
        finishCommand fuel c (.err r.str)
          { s with
              busy := true
              t := 0
              currentCmd := some ⟨c, none, none, none, none⟩ }
      | .ok sol =>
        let qStart := s.q
        { s with
            busy := true
            t := 0
            currentCmd := some ⟨c, some qStart, some sol.q,
              some (computeDuration qStart sol.q s.speedScale), some sol.chosen⟩ }
    | .SLEEP seconds =>
      { s with
          busy := true
          t := 0
          currentCmd := some ⟨c, none, none, some (max 0 seconds), none⟩ }
    | .LINE_TO x y steps =>
      -- `Math.max(2, cmd.steps | 0)`: `steps | 0` is ToInt32 (`toInt32`).
      let s1 := { s with
        busy := true
        t := 0
        currentCmd := some ⟨c, none, none, none, none⟩ }
      let ee := fk s1.q
      let n : ℤ := max 2 (toInt32 steps)
      let s2 := (List.range n.toNat).foldl (fun acc i =>
        enqueue fuel (lineSub c.id x y ee.x2 ee.y2 n i) acc) s1
      finishCommand fuel c .okExpanded s2
    | .UNKNOWN =>
      finishCommand fuel c (.err "unknown-cmd")
        { s with
            busy := true
            t := 0
            currentCmd := some ⟨c, none, none, none, none⟩ }

/-- `finishCommand` from main.js: clear busy/current, post the `cmd_done`
event, then immediately try to start the next queued command. -/
def finishCommand : ℕ → Cmd → CmdResult → SimState → SimState
  | 0, _, _, s => s
  | fuel + 1, c, result, s =>
    tryStartNext fuel
      { s with
          busy := false
          currentCmd := none
          events := s.events ++ [(c.id, result)] }

end

open Classical in
/-- The motion branch of `update` in main.js (HOME / SET_JOINTS / MOVE_TO):
interpolate with the eased progress, record the end effector on the
toolpath, and finish once progress reaches 1. -/
def motionStep (fuel : ℕ) (ac : ActiveCmd) (s1 : SimState) : SimState :=
  match ac.duration, ac.qStart, ac.qTarget with
  | some d, some qs, some qt =>
    let u := clamp (s1.t / d) 0 1
    let sm := smoothstep u
    let q := (lerp qs.1 qt.1 sm, lerp qs.2 qt.2 sm)
    let ee := fk q
    let s2 := { s1 with q := q, toolPath := s1.toolPath ++ [(ee.x2, ee.y2)] }
    if 1 ≤ u then finishCommand fuel ac.cmd (.okIk ac.ikChosen) s2 else s2
  | _, _, _ => s1

open Classical in
/-- `update(dt)` from main.js: when busy with a current command, accumulate
elapsed time and advance the command (SLEEP waits; motion kinds
interpolate; other kinds only accumulate time). -/
def update (fuel : ℕ) (dt : ℝ) (s : SimState) : SimState :=
  if s.busy then
    match s.currentCmd with
    | some ac =>
      let s1 := { s with t := s.t + dt }
      match ac.cmd.type with
      | .SLEEP _ =>
        match ac.duration with
        | some d => if d ≤ s1.t then finishCommand fuel ac.cmd .okPlain s1 else s1
        | none => s1
      | .HOME => motionStep fuel ac s1
      | .SET_JOINTS _ _ => motionStep fuel ac s1
      | .MOVE_TO _ _ => motionStep fuel ac s1
      | _ => s1
    | none => s
  else s

/-- The `set_speed` handler in `worker.onmessage`:
`state.speedScale = clamp(msg.value, 0, 1)`. -/
def setSpeed (value : ℝ) (s : SimState) : SimState :=
  { s with speedScale := clamp value 0 1 }

/-- The `reset_path` handler in `worker.onmessage`: clears the toolpath
only. -/
def resetPath (s : SimState) : SimState := { s with toolPath := [] }

/-- `stopBtn.onclick` in main.js: empty the queue, clear busy and the
current command. -/
def stop (s : SimState) : SimState :=
  { s with queue := [], busy := false, currentCmd := none }

/-- `hardResetSim` from main.js: as stop, plus joints home, speed scale
back to the 0.7 default and toolpath cleared. -/
def hardResetSim (s : SimState) : SimState :=
  { s with
      queue := []
      busy := false
      currentCmd := none
      q := (0, 0)
      speedScale := 0.7
      toolPath := [] }

/-! ### Engine unfolding lemmas -/

theorem enqueue_succ (fuel : ℕ) (c : Cmd) (s : SimState) :
    enqueue (fuel + 1) c s =
      tryStartNext fuel { s with queue := s.queue ++ [c] } := rfl

theorem tryStartNext_busy (fuel : ℕ) (s : SimState) (h : s.busy = true) :
    tryStartNext fuel s = s := by
  cases fuel with
  | zero => rfl
  | succ fuel =>
    rw [tryStartNext]
    simp [h]

theorem tryStartNext_pop (fuel : ℕ) (c : Cmd) (rest : List Cmd) (s : SimState)
    (hb : s.busy = false) (hq : s.queue = c :: rest) :
    tryStartNext (fuel + 1) s = startCommand fuel c { s with queue := rest } := by
  rw [tryStartNext]
  simp [hb, hq]

theorem enqueue_busy (fuel : ℕ) (c : Cmd) (s : SimState) (h : s.busy = true) :
    enqueue (fuel + 1) c s = { s with queue := s.queue ++ [c] } := by
  rw [enqueue_succ]
  exact tryStartNext_busy fuel _ h

theorem finishCommand_succ (fuel : ℕ) (c : Cmd) (r : CmdResult) (s : SimState) :
    finishCommand (fuel + 1) c r s =
      tryStartNext fuel
        { s with
            busy := false
            currentCmd := none
            events := s.events ++ [(c.id, r)] } := rfl

theorem startCommand_home (fuel : ℕ) (c : Cmd) (s : SimState)
    (h : c.type = .HOME) :
    startCommand (fuel + 1) c s =
      { s with
          busy := true
          t := 0
          currentCmd := some ⟨c, some s.q, some ((0 : ℝ), (0 : ℝ)),
            some (computeDuration s.q (0, 0) s.speedScale), none⟩ } := by
  rw [startCommand, h]

theorem startCommand_setJoints (fuel : ℕ) (c : Cmd) (d1 d2 : ℝ) (s : SimState)
    (h : c.type = .SET_JOINTS d1 d2) :
    startCommand (fuel + 1) c s =
      { s with
          busy := true
          t := 0
          currentCmd := some ⟨c, some s.q,
            some (clamp (deg2rad d1) model.q1Min model.q1Max,
              clamp (deg2rad d2) model.q2Min model.q2Max),
            some (computeDuration s.q
              (clamp (deg2rad d1) model.q1Min model.q1Max,
                clamp (deg2rad d2) model.q2Min model.q2Max) s.speedScale),
            none⟩ } := by
  rw [startCommand, h]

theorem startCommand_sleep (fuel : ℕ) (c : Cmd) (sec : ℝ) (s : SimState)
    (h : c.type = .SLEEP sec) :
    startCommand (fuel + 1) c s =
      { s with
          busy := true
          t := 0
          currentCmd := some ⟨c, none, none, some (max 0 sec), none⟩ } := by
  rw [startCommand, h]

theorem startCommand_moveTo_fail (fuel : ℕ) (c : Cmd) (x y : ℝ) (r : IKReason)
    (s : SimState) (h : c.type = .MOVE_TO x y) (hik : ik x y = .fail r) :
    startCommand (fuel + 1) c s =
      finishCommand fuel c (.err r.str)
        { s with
            busy := true
            t := 0
            currentCmd := some ⟨c, none, none, none, none⟩ } := by
  rw [startCommand, h]
  simp only [hik]

theorem startCommand_moveTo_ok (fuel : ℕ) (c : Cmd) (x y : ℝ) (sol : IKSol)
    (s : SimState) (h : c.type = .MOVE_TO x y) (hik : ik x y = .ok sol) :
    startCommand (fuel + 1) c s =
      { s with
          busy := true
          t := 0
          currentCmd := some ⟨c, some s.q, some sol.q,
            some (computeDuration s.q sol.q s.speedScale), some sol.chosen⟩ } := by
  rw [startCommand, h]
  simp only [hik]

theorem startCommand_unknown (fuel : ℕ) (c : Cmd) (s : SimState)
    (h : c.type = .UNKNOWN) :
    startCommand (fuel + 1) c s =
      finishCommand fuel c (.err "unknown-cmd")
        { s with
            busy := true
            t := 0
            currentCmd := some ⟨c, none, none, none, none⟩ } := by
  rw [startCommand, h]

theorem startCommand_lineTo_raw (fuel : ℕ) (c : Cmd) (x y : ℝ) (steps : ℤ)
    (s : SimState) (h : c.type = .LINE_TO x y steps) :
    startCommand (fuel + 1) c s =
      finishCommand fuel c .okExpanded
        ((List.range (max 2 (toInt32 steps)).toNat).foldl
          (fun acc i =>
            enqueue fuel
              (lineSub c.id x y (fk s.q).x2 (fk s.q).y2 (max 2 (toInt32 steps)) i)
              acc)
          { s with
              busy := true
              t := 0
              currentCmd := some ⟨c, none, none, none, none⟩ }) := by
  rw [startCommand, h]

/-- While the engine is busy, the expansion loop only appends the
sub-commands at the tail of the queue, in loop order. -/
theorem foldl_enqueue_busy (fuel : ℕ) (f : ℕ → Cmd) :
    ∀ (l : List ℕ) (s : SimState), s.busy = true →
      l.foldl (fun acc i => enqueue (fuel + 1) (f i) acc) s =
        { s with queue := s.queue ++ l.map f } := by
  intro l
  induction l with
  | nil =>
    intro s _
    simp
  | cons i l ihl =>
    intro s h
    rw [List.foldl_cons, enqueue_busy _ _ _ h, ihl _ (by exact h)]
    simp

theorem enqueue_zero (c : Cmd) (s : SimState) : enqueue 0 c s = s := rfl

theorem tryStartNext_zero (s : SimState) : tryStartNext 0 s = s := rfl

theorem startCommand_zero (c : Cmd) (s : SimState) : startCommand 0 c s = s := rfl

theorem finishCommand_zero (c : Cmd) (r : CmdResult) (s : SimState) :
    finishCommand 0 c r s = s := rfl

/-! ### Frame facts: the queue-draining calls never move the arm -/

/-- `s'` agrees with `s` on joints, toolpath and speed scale, and its event
log extends `s`'s. -/
def FramePres (s s' : SimState) : Prop :=
  s'.q = s.q ∧ s'.toolPath = s.toolPath ∧ s'.speedScale = s.speedScale ∧
    ∃ e, s'.events = s.events ++ e

theorem framePres_refl (s : SimState) : FramePres s s :=
  ⟨rfl, rfl, rfl, [], by simp⟩

theorem framePres_trans {s t u : SimState} (h1 : FramePres s t)
    (h2 : FramePres t u) : FramePres s u := by
  obtain ⟨a1, b1, c1, e1, he1⟩ := h1
  obtain ⟨a2, b2, c2, e2, he2⟩ := h2
  refine ⟨a2.trans a1, b2.trans b1, c2.trans c1, e1 ++ e2, ?_⟩
  rw [he2, he1, List.append_assoc]

/-- None of the queue-draining calls touches the joint angles, the
toolpath or the speed scale, and each only appends to the event log
(only `update` moves the arm). -/
theorem frame_all (fuel : ℕ) :
    (∀ c s, FramePres s (enqueue fuel c s)) ∧
    (∀ s, FramePres s (tryStartNext fuel s)) ∧
    (∀ c s, FramePres s (startCommand fuel c s)) ∧
    (∀ c r s, FramePres s (finishCommand fuel c r s)) := by
  induction fuel with
  | zero =>
    exact ⟨fun c s => framePres_refl s, fun s => framePres_refl s,
      fun c s => framePres_refl s, fun c r s => framePres_refl s⟩
  | succ fuel ih =>
    obtain ⟨ihe, iht, ihs, ihf⟩ := ih
    refine ⟨?_, ?_, ?_, ?_⟩
    · intro c s
      rw [enqueue_succ]
      refine framePres_trans ?_ (iht _)
      exact ⟨rfl, rfl, rfl, [], by simp⟩
    · intro s
      rw [tryStartNext]
      split
      · exact framePres_refl s
      · split
        · exact framePres_refl s
        · refine framePres_trans ?_ (ihs _ _)
          exact ⟨rfl, rfl, rfl, [], by simp⟩
    · intro c s
      rw [startCommand]
      split
      · exact ⟨rfl, rfl, rfl, [], by simp⟩
      · exact ⟨rfl, rfl, rfl, [], by simp⟩
      · split
        · refine framePres_trans ?_ (ihf _ _ _)
          exact ⟨rfl, rfl, rfl, [], by simp⟩
        · exact ⟨rfl, rfl, rfl, [], by simp⟩
      · exact ⟨rfl, rfl, rfl, [], by simp⟩
      · have hfold : ∀ (f : ℕ → Cmd) (l : List ℕ) (s0 : SimState),
            FramePres s0 (l.foldl (fun acc i => enqueue fuel (f i) acc) s0) := by
          intro f l
          induction l with
          | nil => intro s0; exact framePres_refl s0
          | cons i l ihl =>
            intro s0
            rw [List.foldl_cons]
            exact framePres_trans (ihe _ _) (ihl _)
        refine framePres_trans (framePres_trans ?_ (hfold _ _ _)) (ihf _ _ _)
        exact ⟨rfl, rfl, rfl, [], by simp⟩
      · refine framePres_trans ?_ (ihf _ _ _)
        exact ⟨rfl, rfl, rfl, [], by simp⟩
    · intro c r s
      rw [finishCommand_succ]
      refine framePres_trans ?_ (iht _)
      exact ⟨rfl, rfl, rfl, [(c.id, r)], rfl⟩

theorem tryStartNext_frame (fuel : ℕ) (s : SimState) :
    FramePres s (tryStartNext fuel s) := (frame_all fuel).2.1 s

theorem finishCommand_frame (fuel : ℕ) (c : Cmd) (r : CmdResult) (s : SimState) :
    FramePres s (finishCommand fuel c r s) := (frame_all fuel).2.2.2 c r s

/-! ### The busy/currentCmd invariant -/

/-- The invariant of the claim: busy exactly when a command is current. -/
def EngineInv (s : SimState) : Prop := s.busy = true ↔ s.currentCmd ≠ none

/-- Preservation of `EngineInv` by the four queue-draining calls. -/
theorem inv_all (fuel : ℕ) :
    (∀ c s, EngineInv s → EngineInv (enqueue fuel c s)) ∧
    (∀ s, EngineInv s → EngineInv (tryStartNext fuel s)) ∧
    (∀ c s, EngineInv s → EngineInv (startCommand fuel c s)) ∧
    (∀ c r s, EngineInv s → EngineInv (finishCommand fuel c r s)) := by
  induction fuel with
  | zero =>
    exact ⟨fun c s h => h, fun s h => h, fun c s h => h, fun c r s h => h⟩
  | succ fuel ih =>
    obtain ⟨ihe, iht, ihs, ihf⟩ := ih
    refine ⟨?_, ?_, ?_, ?_⟩
    · intro c s h
      rw [enqueue_succ]
      exact iht _ h
    · intro s h
      rw [tryStartNext]
      split
      · exact h
      · split
        · exact h
        · exact ihs _ _ h
    · intro c s h
      rw [startCommand]
      split
      · simp [EngineInv]
      · simp [EngineInv]
      · split
        · exact ihf _ _ _ (by simp [EngineInv])
        · simp [EngineInv]
      · simp [EngineInv]
      · have hfold : ∀ (f : ℕ → Cmd) (l : List ℕ) (s0 : SimState), EngineInv s0 →
            EngineInv (l.foldl (fun acc i => enqueue fuel (f i) acc) s0) := by
          intro f l
          induction l with
          | nil => intro s0 h0; exact h0
          | cons i l ihl =>
            intro s0 h0
            rw [List.foldl_cons]
            exact ihl _ (ihe _ _ h0)
        exact ihf _ _ _ (hfold _ _ _ (by simp [EngineInv]))
      · exact ihf _ _ _ (by simp [EngineInv])
    · intro c r s h
      rw [finishCommand_succ]
      exact iht _ (by simp [EngineInv])

/-- A finish-or-stay branch preserves `EngineInv`. -/
theorem engineInv_branch (fuel : ℕ) (c : Cmd) (r : CmdResult) (s2 : SimState)
    (P : Prop) [Decidable P] (h : EngineInv s2) :
    EngineInv (if P then finishCommand fuel c r s2 else s2) := by
  split
  · exact (inv_all fuel).2.2.2 _ _ _ h
  · exact h

/-- `EngineInv` is preserved by the motion branch of `update`. -/
theorem motionStep_inv (fuel : ℕ) (ac : ActiveCmd) (s1 : SimState)
    (h : EngineInv s1) : EngineInv (motionStep fuel ac s1) := by
  rw [motionStep]
  split
  · exact engineInv_branch fuel _ _ _ _ (by exact h)
  · exact h

/--
Claim C7 (confirmed).  The invariant `busy == true ↔ currentCmd != null`
holds in the initial state and is preserved by every engine operation:
`enqueue`, `tryStartNext`, `startCommand` (every command kind, including
the immediate-finish branches), `update`, `finishCommand`, stop, and hard
reset.
-/
theorem spec_c7_invariant :
    EngineInv initState ∧
    (∀ fuel c s, EngineInv s → EngineInv (enqueue fuel c s)) ∧
    (∀ fuel s, EngineInv s → EngineInv (tryStartNext fuel s)) ∧
    (∀ fuel c s, EngineInv s → EngineInv (startCommand fuel c s)) ∧
    (∀ fuel dt s, EngineInv s → EngineInv (update fuel dt s)) ∧
    (∀ fuel c r s, EngineInv s → EngineInv (finishCommand fuel c r s)) ∧
    (∀ s, EngineInv (stop s)) ∧
    (∀ s, EngineInv (hardResetSim s)) := by
  refine ⟨?_, fun fuel => (inv_all fuel).1, fun fuel => (inv_all fuel).2.1,
    fun fuel => (inv_all fuel).2.2.1, ?_, fun fuel => (inv_all fuel).2.2.2,
    ?_, ?_⟩
  · simp [EngineInv, initState]
  · intro fuel dt s h
    rw [update]
    split
    · split
      · split
        · split
          · exact engineInv_branch fuel _ _ _ _ (by exact h)
          · exact h
        · exact motionStep_inv fuel _ _ (by exact h)
        · exact motionStep_inv fuel _ _ (by exact h)
        · exact motionStep_inv fuel _ _ (by exact h)
        · exact h
      · exact h
    · exact h
  · intro s
    simp [EngineInv, stop]
  · intro s
    simp [EngineInv, hardResetSim]

/-- Witness for `spec_c7_invariant`: the invariant after enqueueing a HOME
command into the initial state. -/
theorem spec_c7_invariant_witness :
    EngineInv (enqueue 3 ⟨"A", .HOME⟩ initState) :=
  spec_c7_invariant.2.1 3 ⟨"A", .HOME⟩ initState spec_c7_invariant.1

/-! ### The LINE_TO expansion equation -/

/-- Starting a `LINE_TO` command appends its sub-commands at the **tail**
of the queue (behind anything already queued), emits the parent's
`{ok:true, note:"expanded"}` completion event, and only then lets the
engine start the next head of the queue — all within the same call. -/
theorem startCommand_lineTo (fuel : ℕ) (c : Cmd) (x y : ℝ) (steps : ℤ)
    (s : SimState) (h : c.type = .LINE_TO x y steps) :
    startCommand (fuel + 2) c s =
      tryStartNext fuel
        { s with
            busy := false
            currentCmd := none
            t := 0
            queue := s.queue ++ lineSubCmds c.id x y (fk s.q).x2 (fk s.q).y2 steps
            events := s.events ++ [(c.id, CmdResult.okExpanded)] } := by
  have h1 : startCommand (fuel + 2) c s =
      finishCommand (fuel + 1) c .okExpanded
        ((List.range (max 2 (toInt32 steps)).toNat).foldl
          (fun acc i =>
            enqueue (fuel + 1)
              (lineSub c.id x y (fk s.q).x2 (fk s.q).y2 (max 2 (toInt32 steps)) i)
              acc)
          { s with
              busy := true
              t := 0
              currentCmd := some ⟨c, none, none, none, none⟩ }) :=
    startCommand_lineTo_raw (fuel + 1) c x y steps s h
  rw [h1,
    foldl_enqueue_busy fuel
      (lineSub c.id x y (fk s.q).x2 (fk s.q).y2 (max 2 (toInt32 steps)))
      (List.range (max 2 (toInt32 steps)).toNat)
      { s with
          busy := true
          t := 0
          currentCmd := some ⟨c, none, none, none, none⟩ } rfl,
    finishCommand_succ]
  rfl

/--
Claim C9 (confirmed).  Starting `LINE_TO(x, y, steps)` with id `P`
enqueues exactly `max(2, toInt32(steps))` `MOVE_TO` sub-commands — the
source truncates the step count with `steps | 0` (ToInt32) before taking
the maximum with 2 — with ids `"P:1"`
through `"P:n"` in index order, whose targets are linearly spaced between
the current end-effector position (computed by `fk`) and `(x, y)` with the
last target exactly `(x, y)`; the `LINE_TO` itself finishes in the same
call with `{ok:true, note:"expanded"}` and never occupies simulation time.
-/
theorem spec_c9_lineTo_expansion (fuel : ℕ) (c : Cmd) (x y : ℝ) (steps : ℤ)
    (s : SimState) (h : c.type = .LINE_TO x y steps) :
    (startCommand (fuel + 2) c s =
      tryStartNext fuel
        { s with
            busy := false
            currentCmd := none
            t := 0
            queue := s.queue ++ lineSubCmds c.id x y (fk s.q).x2 (fk s.q).y2 steps
            events := s.events ++ [(c.id, CmdResult.okExpanded)] }) ∧
    (lineSubCmds c.id x y (fk s.q).x2 (fk s.q).y2 steps).length =
      (max 2 (toInt32 steps)).toNat ∧
    (∀ i : ℕ, i < (max 2 (toInt32 steps)).toNat →
      (lineSubCmds c.id x y (fk s.q).x2 (fk s.q).y2 steps)[i]? =
        some ⟨c.id ++ ":" ++ toString (i + 1),
          CmdType.MOVE_TO
            ((fk s.q).x2 + (x - (fk s.q).x2) *
              (((i : ℝ) + 1) / ((max 2 (toInt32 steps) : ℤ) : ℝ)))
            ((fk s.q).y2 + (y - (fk s.q).y2) *
              (((i : ℝ) + 1) / ((max 2 (toInt32 steps) : ℤ) : ℝ)))⟩) ∧
    ((lineSubCmds c.id x y (fk s.q).x2 (fk s.q).y2
        steps)[(max 2 (toInt32 steps)).toNat - 1]?).map Cmd.type =
      some (CmdType.MOVE_TO x y) := by
  refine ⟨startCommand_lineTo fuel c x y steps s h, ?_, ?_, ?_⟩
  · simp [lineSubCmds]
  · intro i hi
    simp [lineSubCmds, List.getElem?_map, List.getElem?_range hi, lineSub]
  · have hn2 : 2 ≤ (max 2 (toInt32 steps)).toNat := by omega
    have hlt : (max 2 (toInt32 steps)).toNat - 1 < (max 2 (toInt32 steps)).toNat := by
      omega
    have hNcast : ((max 2 (toInt32 steps) : ℤ) : ℝ) =
        ((max 2 (toInt32 steps)).toNat : ℝ) := by
      have h0 : (((max 2 (toInt32 steps)).toNat : ℤ)) = max 2 (toInt32 steps) :=
        Int.toNat_of_nonneg (by omega)
      rw [← h0]
      push_cast
      rfl
    obtain ⟨m, hm⟩ : ∃ m, (max 2 (toInt32 steps)).toNat = m + 2 :=
      ⟨(max 2 (toInt32 steps)).toNat - 2, by omega⟩
    have hu1 : (((max 2 (toInt32 steps)).toNat - 1 : ℕ) : ℝ) + 1 =
        ((max 2 (toInt32 steps) : ℤ) : ℝ) := by
      rw [hNcast, hm]
      push_cast
      ring
    have hNne : ((max 2 (toInt32 steps) : ℤ) : ℝ) ≠ 0 := by
      rw [hNcast, hm]
      push_cast
      positivity
    simp only [lineSubCmds, List.getElem?_map, List.getElem?_range hlt]
    simp [lineSub, hu1]
    have hx : ((2 : ℝ) ⊔ ((toInt32 steps : ℤ) : ℝ)) =
        (((2 ⊔ toInt32 steps : ℤ)) : ℝ) := by
      push_cast
      rfl
    rw [hx, ← hNcast, div_self hNne]
    constructor <;> ring

/-- Witness for `spec_c9_lineTo_expansion`: a `LINE_TO(50, 60, 10)` from the
initial pose expands into exactly `max 2 10 = 10` sub-commands. -/
theorem spec_c9_lineTo_expansion_witness :
    (lineSubCmds "L" 50 60 (fk initState.q).x2 (fk initState.q).y2 10).length =
      (max 2 (toInt32 (10 : ℤ))).toNat :=
  (spec_c9_lineTo_expansion 0 ⟨"L", .LINE_TO 50 60 10⟩ 50 60 10 initState rfl).2.1

/--
Claim C1, amended.  Completion events follow the FIFO order of the queue,
but a `LINE_TO`'s sub-commands are enqueued at the **tail** when the parent
starts: starting a `LINE_TO` appends its sub-commands (ids `"P:i"` in index
order) behind everything already queued, emits the parent's completion
event, and only then starts the queue head.  Consequently the sub-commands
complete in index order, yet a command C that was already in the queue when
the `LINE_TO` started completes **before** them; the claimed "all N
sub-commands complete before C starts" holds only when C is enqueued after
the expansion.
-/
theorem spec_c1_amended (fuel : ℕ) (c : Cmd) (x y : ℝ) (steps : ℤ)
    (s : SimState) (h : c.type = .LINE_TO x y steps) :
    (startCommand (fuel + 2) c s =
      tryStartNext fuel
        { s with
            busy := false
            currentCmd := none
            t := 0
            queue := s.queue ++ lineSubCmds c.id x y (fk s.q).x2 (fk s.q).y2 steps
            events := s.events ++ [(c.id, CmdResult.okExpanded)] }) ∧
    (∀ i : ℕ, i < (max 2 (toInt32 steps)).toNat →
      ((lineSubCmds c.id x y (fk s.q).x2 (fk s.q).y2 steps)[i]?).map Cmd.id =
        some (c.id ++ ":" ++ toString (i + 1))) := by
  refine ⟨startCommand_lineTo fuel c x y steps s h, ?_⟩
  intro i hi
  simp [lineSubCmds, List.getElem?_map, List.getElem?_range hi, lineSub]

/-- Witness for `spec_c1_amended`: the first sub-command of a
`LINE_TO(280, 0, 2)` from the initial pose carries id `"B:1"`. -/
theorem spec_c1_amended_witness :
    ((lineSubCmds "B" 280 0 (fk initState.q).x2 (fk initState.q).y2 2)[0]?).map
      Cmd.id = some ("B" ++ ":" ++ toString (0 + 1)) :=
  (spec_c1_amended 0 ⟨"B", .LINE_TO 280 0 2⟩ 280 0 2 initState rfl).2 0 (by decide)

/-- The concrete scenario refuting claim C1 as stated: enqueue
A = `SLEEP 1`, B = `LINE_TO(280, 0, 2)`, C = `SLEEP 0` (so C is already in
the queue when B starts), then advance one 1-second tick (which finishes A,
expands-and-finishes B, and starts C). -/
def c1Run : SimState :=
  update 20 1 (enqueue 20 ⟨"C", CmdType.SLEEP 0⟩
    (enqueue 20 ⟨"B", CmdType.LINE_TO 280 0 2⟩
      (enqueue 20 ⟨"A", CmdType.SLEEP 1⟩ initState)))

/--
Claim C1, counterexample.  In the scenario `c1Run`, after the tick that
finishes A: A and B have completed (in that order), **C is already the
currently executing command**, and B's two sub-commands `B:1`, `B:2` are
still waiting in the queue — no sub-command has completed before C started,
refuting "all N sub-commands complete (in index order) before C starts,
even if C was already in the queue when B started".
-/
theorem spec_c1_counterexample :
    c1Run.events = [("A", CmdResult.okPlain), ("B", CmdResult.okExpanded)] ∧
    c1Run.currentCmd.map (fun ac => ac.cmd) = some ⟨"C", CmdType.SLEEP 0⟩ ∧
    c1Run.queue.map Cmd.id = ["B:1", "B:2"] := by
  have h1 : c1Run =
      if (max 0 1 : ℝ) ≤ 0 + 1 then
        finishCommand 20 ⟨"A", CmdType.SLEEP 1⟩ CmdResult.okPlain
          ⟨(deg2rad 0, deg2rad 0), 0.7, [], true,
            some ⟨⟨"A", CmdType.SLEEP 1⟩, none, none, some (max 0 1), none⟩,
            0 + 1, [⟨"B", CmdType.LINE_TO 280 0 2⟩, ⟨"C", CmdType.SLEEP 0⟩], []⟩
      else
        ⟨(deg2rad 0, deg2rad 0), 0.7, [], true,
          some ⟨⟨"A", CmdType.SLEEP 1⟩, none, none, some (max 0 1), none⟩,
          0 + 1, [⟨"B", CmdType.LINE_TO 280 0 2⟩, ⟨"C", CmdType.SLEEP 0⟩], []⟩ :=
    rfl
  have hrun : c1Run =
      finishCommand 20 ⟨"A", CmdType.SLEEP 1⟩ CmdResult.okPlain
        ⟨(deg2rad 0, deg2rad 0), 0.7, [], true,
          some ⟨⟨"A", CmdType.SLEEP 1⟩, none, none, some (max 0 1), none⟩,
          0 + 1, [⟨"B", CmdType.LINE_TO 280 0 2⟩, ⟨"C", CmdType.SLEEP 0⟩], []⟩ := by
    rw [h1, if_pos]
    norm_num [max_def]
  refine ⟨?_, ?_, ?_⟩
  · rw [hrun]
    rfl
  · rw [hrun]
    rfl
  · rw [hrun]
    rfl

/-! ### set_speed -/

/--
Claim C2, amended.  After a `set_speed(v)` message the speed scale equals
`clamp(v, 0, 1)` immediately, and it affects the durations of all commands
whose duration is computed afterwards (every future `computeDuration` call
reads the new scale); the in-flight command, however, is untouched — its
already-computed `duration` field (stored in `currentCmd`) is not
recomputed.
-/
theorem spec_c2_amended (v : ℝ) (s : SimState) :
    (setSpeed v s).speedScale = clamp v 0 1 ∧
    (setSpeed v s).currentCmd = s.currentCmd ∧
    (∀ qs qt : ℝ × ℝ,
      computeDuration qs qt (setSpeed v s).speedScale =
        computeDuration qs qt (clamp v 0 1)) :=
  ⟨rfl, rfl, fun _ _ => rfl⟩

/-- The concrete scenario refuting the "affects the in-flight command"
part of claim C2: start `SET_JOINTS(90, 0)` at the default speed scale 0.7,
then send `set_speed(0.35)` while it is executing. -/
def c2Run : SimState :=
  setSpeed 0.35 (enqueue 20 ⟨"J", CmdType.SET_JOINTS 90 0⟩ initState)

/--
Claim C2, counterexample.  In `c2Run` the speed scale has changed to 0.35,
but the in-flight command's stored duration is still `15/14` s — the value
computed from the old scale 0.7 — whereas recomputing the same motion at
the new scale yields `15/7` s.  The duration of the command currently
executing is therefore **not** affected by `set_speed`.
-/
theorem spec_c2_counterexample :
    c2Run.speedScale = 0.35 ∧
    c2Run.currentCmd.map (fun ac => ac.duration) = some (some (15 / 14)) ∧
    computeDuration ((0 : ℝ), (0 : ℝ)) (Real.pi / 2, 0) c2Run.speedScale = 15 / 7 ∧
    ((15 : ℝ) / 14) ≠ 15 / 7 := by
  have hpi := Real.pi_pos
  have hsp : c2Run.speedScale = clamp 0.35 0 1 := rfl
  have hsp' : c2Run.speedScale = 0.35 := by
    rw [hsp, clamp]
    norm_num [min_def, max_def]
  have hd0 : deg2rad 0 = 0 := by
    simp [deg2rad]
  have h90 : clamp (deg2rad 90) model.q1Min model.q1Max = Real.pi / 2 := by
    simp only [clamp, deg2rad, model]
    rw [min_eq_right (by nlinarith), max_eq_right (by nlinarith)]
    ring
  have h0c : clamp (deg2rad 0) model.q2Min model.q2Max = 0 := by
    simp only [clamp, deg2rad, model]
    rw [min_eq_right (by nlinarith), max_eq_right (by nlinarith)]
    ring
  have habs : max |Real.pi / 2 - 0| |(0 : ℝ) - 0| = Real.pi / 2 := by
    rw [sub_zero, sub_zero, abs_zero, abs_of_nonneg (by positivity)]
    exact max_eq_left (by positivity)
  have hc7 : computeDuration ((0 : ℝ), (0 : ℝ)) (Real.pi / 2, 0) 0.7 = 15 / 14 := by
    rw [computeDuration_eval]
    simp only [model, deg2rad]
    rw [show clamp 0.7 0.05 1 = 0.7 by rw [clamp]; norm_num [min_def, max_def]]
    rw [habs]
    rw [show Real.pi / 2 / (120 * Real.pi / 180 * 0.7) = 15 / 14 by
      field_simp
      ring]
    rw [max_eq_right (by norm_num)]
  have hc35 : computeDuration ((0 : ℝ), (0 : ℝ)) (Real.pi / 2, 0) 0.35 = 15 / 7 := by
    rw [computeDuration_eval]
    simp only [model, deg2rad]
    rw [show clamp 0.35 0.05 1 = 0.35 by rw [clamp]; norm_num [min_def, max_def]]
    rw [habs]
    rw [show Real.pi / 2 / (120 * Real.pi / 180 * 0.35) = 15 / 7 by
      field_simp
      ring]
    rw [max_eq_right (by norm_num)]
  refine ⟨hsp', ?_, ?_, by norm_num⟩
  · have h2 : c2Run.currentCmd.map (fun ac => ac.duration) =
        some (some (computeDuration (deg2rad 0, deg2rad 0)
          (clamp (deg2rad 90) model.q1Min model.q1Max,
            clamp (deg2rad 0) model.q2Min model.q2Max) 0.7)) := rfl
    rw [h2, h90, h0c, hd0, hc7]
  · rw [hsp', hc35]

/-! ### MOVE_TO with a failing IK target -/

/--
Claim C8 (confirmed).  Starting a `MOVE_TO` whose target is rejected by
`ik` finishes the command immediately in the same call: the failure event
`{ok:false, error:reason}` (with the IK failure reason) is the next
completion event emitted, and the joint angles and the toolpath are left
unchanged by the whole call — the command never moves the arm.
-/
theorem spec_c8_moveTo_failure (fuel : ℕ) (s : SimState) (c : Cmd) (x y : ℝ)
    (r : IKReason) (hc : c.type = .MOVE_TO x y) (hik : ik x y = .fail r) :
    (startCommand (fuel + 2) c s).q = s.q ∧
    (startCommand (fuel + 2) c s).toolPath = s.toolPath ∧
    ∃ rest, (startCommand (fuel + 2) c s).events =
      s.events ++ (c.id, CmdResult.err r.str) :: rest := by
  have h1 : startCommand (fuel + 2) c s =
      finishCommand (fuel + 1) c (.err r.str)
        { s with
            busy := true
            t := 0
            currentCmd := some ⟨c, none, none, none, none⟩ } :=
    startCommand_moveTo_fail (fuel + 1) c x y r s hc hik
  rw [h1, finishCommand_succ]
  refine ⟨?_, ?_, ?_⟩
  · rw [(tryStartNext_frame fuel _).1]
  · rw [(tryStartNext_frame fuel _).2.1]
  · obtain ⟨e, he⟩ := (tryStartNext_frame fuel _).2.2.2
    refine ⟨e, ?_⟩
    rw [he]
    simp

/-- Witness for `spec_c8_moveTo_failure` at the unreachable target
`(281, 0)`. -/
theorem spec_c8_moveTo_failure_witness :
    (startCommand 2 ⟨"M", .MOVE_TO 281 0⟩ initState).q = initState.q ∧
    (startCommand 2 ⟨"M", .MOVE_TO 281 0⟩ initState).toolPath =
      initState.toolPath ∧
    ∃ rest, (startCommand 2 ⟨"M", .MOVE_TO 281 0⟩ initState).events =
      initState.events ++ ("M", CmdResult.err IKReason.unreachable.str) :: rest :=
  spec_c8_moveTo_failure 0 initState ⟨"M", .MOVE_TO 281 0⟩ 281 0 .unreachable
    rfl ik_281

/-! ### Exact arrival at the target -/

/-- When the motion branch of `update` reaches full progress (`u = 1`), the
joints written by the final tick are exactly `qTarget`, and they survive
the immediate start of the next command. -/
theorem motionStep_q_of_done (fuel : ℕ) (ac : ActiveCmd) (s1 : SimState)
    (d : ℝ) (qs qt : ℝ × ℝ) (hd : ac.duration = some d)
    (hqs : ac.qStart = some qs) (hqt : ac.qTarget = some qt)
    (hcl : clamp (s1.t / d) 0 1 = 1) :
    (motionStep fuel ac s1).q = qt := by
  simp only [motionStep, hd, hqs, hqt, hcl]
  rw [if_pos le_rfl]
  rw [(finishCommand_frame fuel _ _ _).1]
  have hsm : smoothstep 1 = 1 := by
    rw [smoothstep]
    norm_num
  rw [hsm]
  rw [show lerp qs.1 qt.1 1 = qt.1 from by rw [lerp]; ring,
    show lerp qs.2 qt.2 1 = qt.2 from by rw [lerp]; ring]

/--
Claim C10 (confirmed).  When a HOME, SET_JOINTS or MOVE_TO command
completes via the tick loop (progress reaches 1 this tick), the joint
angles equal the command's `qTarget` exactly, not merely within tolerance:
`u` is clamped to 1, `smoothstep 1 = 1` and `lerp a b 1 = b`, so the final
tick writes `qTarget` itself.
-/
theorem spec_c10_exact_target (fuel : ℕ) (dt : ℝ) (s : SimState)
    (ac : ActiveCmd) (d : ℝ) (qs qt : ℝ × ℝ)
    (hb : s.busy = true) (hcur : s.currentCmd = some ac)
    (htype : ac.cmd.type = .HOME ∨ (∃ a b, ac.cmd.type = .SET_JOINTS a b) ∨
      (∃ x y, ac.cmd.type = .MOVE_TO x y))
    (hd : ac.duration = some d) (hqs : ac.qStart = some qs)
    (hqt : ac.qTarget = some qt) (hu : 1 ≤ (s.t + dt) / d) :
    (update fuel dt s).q = qt ∧ smoothstep 1 = 1 ∧
      (∀ a b : ℝ, lerp a b 1 = b) := by
  have hclamp : clamp ((s.t + dt) / d) 0 1 = 1 := by
    rw [clamp, min_eq_left hu]
    exact max_eq_right (by norm_num)
  have hupd : update fuel dt s = motionStep fuel ac { s with t := s.t + dt } := by
    rcases htype with h | ⟨a, b, h⟩ | ⟨x, y, h⟩ <;> simp [update, hb, hcur, h]
  refine ⟨?_, by rw [smoothstep]; norm_num, fun a b => by rw [lerp]; ring⟩
  rw [hupd]
  exact motionStep_q_of_done fuel ac _ d qs qt hd hqs hqt (by exact hclamp)

/-- Witness for `spec_c10_exact_target`: a HOME command with
`qStart = (5, 0)`, `qTarget = (0, 0)` and duration 1, ticked by `dt = 2`,
lands exactly on `(0, 0)`. -/
theorem spec_c10_exact_target_witness :
    (update 3 2 ⟨((5 : ℝ), (0 : ℝ)), 0.7, [], true,
        some ⟨⟨"H", CmdType.HOME⟩, some (5, 0), some (0, 0), some 1, none⟩,
        0, [], []⟩).q = ((0 : ℝ), (0 : ℝ)) ∧
    smoothstep 1 = 1 ∧ (∀ a b : ℝ, lerp a b 1 = b) :=
  spec_c10_exact_target 3 2
    ⟨((5 : ℝ), (0 : ℝ)), 0.7, [], true,
      some ⟨⟨"H", CmdType.HOME⟩, some (5, 0), some (0, 0), some 1, none⟩,
      0, [], []⟩
    ⟨⟨"H", CmdType.HOME⟩, some (5, 0), some (0, 0), some 1, none⟩
    1 (5, 0) (0, 0) rfl rfl (Or.inl rfl) rfl rfl rfl (by norm_num)

end

end RoboSim
